import Mathlib

/-!
Shallow embedding of `src/student_mngmt.py` (Student Management System).

Conventions of the embedding:
* Python strings are embedded as `List Char` (named `Str` below).
* Each CLI operation becomes a pure function from the in-memory store
  (a `List Student`) and the console inputs it reads to an explicit
  outcome type; printing is dropped, and "no write happened" is visible
  as the outcome constructor (only `saved` carries a new store).
* Python `float` values are embedded as exact rationals `ℚ`; every finite
  decimal literal is represented exactly.  The special literals
  `inf`/`nan` and binary-rounding artefacts of IEEE doubles are outside
  the scope of this embedding and are noted where relevant.
-/

namespace StudentMngmt

/-- Embedded Python string: a list of characters. -/
abbrev Str := List Char

/-- One CSV row of the store: `roll`, `name`, `marks`, all strings
(mirrors the `Dict[str, str]` rows produced by `csv.DictReader`). -/
structure Student where
  roll : Str
  name : Str
  marks : Str
deriving DecidableEq, Repr

/-- Python `START_ROLL = 1001`. -/
def START_ROLL : ℕ := 1001

/-- Characters removed by Python `str.strip()` (ASCII whitespace;
the further Unicode space characters Python also strips never occur in
the claims and are omitted). -/
def isPySpace (c : Char) : Bool :=
  c = ' ' || c = '\t' || c = '\n' || c = '\r' || c = '\x0b' || c = '\x0c'

/-- Python `str.strip()`: drop leading and trailing whitespace. -/
def pyStrip (s : Str) : Str :=
  ((s.dropWhile isPySpace).reverse.dropWhile isPySpace).reverse

/-- Python `str.lower()` restricted to ASCII letters (`Char.toLower`
maps exactly the range A-Z; the claims use ASCII data only). -/
def pyLower (s : Str) : Str :=
  s.map Char.toLower

/-- Python `str.isdigit()` on ASCII data: nonempty and all characters
are decimal digits. -/
def isdigitStr (s : Str) : Bool :=
  match s with
  | [] => false
  | _ :: _ => s.all Char.isDigit

/-- Numeric value of a decimal digit character. -/
def dval (c : Char) : ℕ := c.toNat - 48

/-- Value of a string of decimal digits (used for `int(r)` on a string
that already passed `isdigit`). -/
def digitsToNat (s : Str) : ℕ :=
  s.foldl (fun a c => a * 10 + dval c) 0

/-- Scanner for a Python "digitpart": after an initial digit has been
consumed, keep consuming digits, allowing a single underscore between
digits.  Returns accumulated value, number of digits, and the rest. -/
def digitsGo : Str → ℕ → ℕ → (ℕ × ℕ × Str)
  | [], acc, n => (acc, n, [])
  | '_' :: c :: t, acc, n =>
    if c.isDigit then digitsGo t (acc * 10 + dval c) (n + 1)
    else (acc, n, '_' :: c :: t)
  | ['_'], acc, n => (acc, n, ['_'])
  | c :: t, acc, n =>
    if c.isDigit then digitsGo t (acc * 10 + dval c) (n + 1)
    else (acc, n, c :: t)

/-- Parse a Python digitpart (`digit (("_")? digit)*`): requires a
leading digit; underscores are allowed only between digits. -/
def takeDigits (s : Str) : Option (ℕ × ℕ × Str) :=
  match s with
  | [] => none
  | c :: t => if c.isDigit then some (digitsGo t (dval c) 1) else none

/-- Python `int(string)`: strip whitespace, optional sign, digitpart,
nothing left over.  (Non-ASCII digit forms are omitted.) -/
def pyInt? (s : Str) : Option ℤ :=
  let s := pyStrip s
  let signAndRest : ℤ × Str :=
    match s with
    | '+' :: t => (1, t)
    | '-' :: t => (-1, t)
    | t => (1, t)
  match takeDigits signAndRest.2 with
  | some (v, _, []) => some (signAndRest.1 * v)
  | _ => none

/-- Exact rational value of a decimal literal with sign `sgn`, mantissa
digits worth `mant`, `fn` of them after the decimal point, and decimal
exponent `ex`: the value `sgn * mant * 10 ^ (ex - fn)`, built with
integer arithmetic and a single `mkRat`. -/
def decValue (sgn : ℤ) (mant : ℕ) (fn : ℕ) (ex : ℤ) : ℚ :=
  let e : ℤ := ex - fn
  if 0 ≤ e then mkRat (sgn * mant * 10 ^ e.toNat) 1
  else mkRat (sgn * mant) (10 ^ (-e).toNat)

/-- Finish a float literal after the mantissa: optional exponent part,
then end of input. -/
def floatFinish (sgn : ℤ) (mant : ℕ) (fn : ℕ) (r : Str) : Option ℚ :=
  match r with
  | [] => some (decValue sgn mant fn 0)
  | e :: r2 =>
    if e = 'e' || e = 'E' then
      let esignAndRest : ℤ × Str :=
        match r2 with
        | '+' :: t => (1, t)
        | '-' :: t => (-1, t)
        | t => (1, t)
      match takeDigits esignAndRest.2 with
      | some (ev, _, []) => some (decValue sgn mant fn (esignAndRest.1 * ev))
      | _ => none
    else none

/-- Python `float(string)` on finite decimal literals: strip
whitespace, optional sign, mantissa (`d.d`, `d.`, `.d` or `d`), optional
exponent.  The value is represented exactly as a rational; the literals
`inf` and `nan` are outside the embedding. -/
def pyFloat? (s : Str) : Option ℚ :=
  let s := pyStrip s
  let signAndRest : ℤ × Str :=
    match s with
    | '+' :: t => (1, t)
    | '-' :: t => (-1, t)
    | t => (1, t)
  let sgn := signAndRest.1
  match takeDigits signAndRest.2 with
  | some (ip, _, r) =>
    match r with
    | '.' :: r2 =>
      match takeDigits r2 with
      | some (fp, fn, r3) => floatFinish sgn (ip * 10 ^ fn + fp) fn r3
      | none => floatFinish sgn ip 0 r2
    | _ => floatFinish sgn ip 0 r
  | none =>
    match signAndRest.2 with
    | '.' :: r2 =>
      match takeDigits r2 with
      | some (fp, fn, r3) => floatFinish sgn fp fn r3
      | none => none
    | _ => none

/-- Decimal digit characters of a natural number (Python `str(int)`). -/
def natStr (n : ℕ) : Str := Nat.toDigits 10 n

/-- Python `str` of an integer. -/
def intStr (n : ℤ) : Str :=
  if n < 0 then '-' :: natStr n.natAbs else natStr n.toNat

/-- Decimal expansion of the fractional part of a nonnegative rational,
with fuel (every parsed float literal has a finite decimal expansion).
Mirrors the digits Python prints for such values. -/
def fracDigits : ℕ → ℚ → Str
  | 0, _ => []
  | fuel + 1, q =>
    if q = 0 then []
    else
      let q10 := q * 10
      let d := ⌊q10⌋.toNat
      Char.ofNat (48 + d) :: fracDigits fuel (q10 - ⌊q10⌋)

/-- Python `str(float)` for the values this program stores: integral
values print without a decimal point elsewhere (`add_student` and
`edit_student` only call this on non-integral values), others as
`intpart.fracpart`.  Shortest-repr subtleties of IEEE doubles do not
arise for the exact decimals of this embedding. -/
def ratStr (q : ℚ) : Str :=
  let sgnPart : Str := if q < 0 then ['-'] else []
  let a := |q|
  sgnPart ++ natStr ⌊a⌋.toNat ++ '.' :: fracDigits 64 (a - ⌊a⌋)

/-- The marks string written by `add_student`/`edit_student`:
`str(int(marks)) if marks.is_integer() else str(marks)`.  A rational is
"integer" exactly when its denominator is 1. -/
def formatMarks (q : ℚ) : Str :=
  if q.den = 1 then intStr q.num else ratStr q

/-- Body of the `for s in students` loop of `generate_roll` (src lines
67-70): the numeric value of a record's stripped roll when it
`isdigit()`, else nothing. -/
def numericRollOf (s : Student) : Option ℕ :=
  let r := pyStrip s.roll
  if isdigitStr r then some (digitsToNat r) else none

/-- Python `generate_roll(students)` (src lines 61-74): `"1001"` if the
list is empty; else collect `int(r)` for every record whose stripped
roll `isdigit()`; if none, `str(START_ROLL + len(students))`; else
`str(max + 1)`. -/
def generate_roll (students : List Student) : Str :=
  match students with
  | [] => natStr START_ROLL
  | _ :: _ =>
    let numeric_rolls := students.filterMap numericRollOf
    match numeric_rolls with
    | [] => natStr (START_ROLL + students.length)
    | m :: ms => natStr (ms.foldl max m + 1)

/-- Python `find_by_roll(students, roll)` (src lines 77-82): first
record whose stripped roll equals the stripped argument. -/
def find_by_roll (students : List Student) (roll : Str) : Option Student :=
  let r := pyStrip roll
  students.find? (fun s => pyStrip s.roll = r)

/-- Outcome of `add_student`: which abort branch was taken, or the new
store that was saved. -/
inductive AddResult where
  | emptyName
  | invalidMarks
  | saved (students : List Student)
deriving DecidableEq, Repr

/-- Python `add_student()` (src lines 85-108), with the two console
inputs made explicit.  The generated roll is computed first; an empty
(stripped) name aborts; marks must parse as a float in [0, 100]
(`marks < 0 or marks > 100` raises); on success the record
`{roll, name, marks_str}` is appended and the store saved. -/
def add_student (students : List Student) (nameInput marksInput : Str) :
    AddResult :=
  let roll := generate_roll students
  let name := pyStrip nameInput
  if name = [] then .emptyName
  else
    let marks_input := pyStrip marksInput
    match pyFloat? marks_input with
    | none => .invalidMarks
    | some marks =>
      if marks < 0 ∨ marks > 100 then .invalidMarks
      else .saved (students ++ [⟨roll, name, formatMarks marks⟩])

/-- Outcome of `delete_student`. -/
inductive DeleteResult where
  | emptyRoll
  | notFound
  | cancelled
  | saved (students : List Student)
deriving DecidableEq, Repr

/-- Python `delete_student()` (src lines 111-129): strip the roll
input; abort on empty; abort if `find_by_roll` misses; cancel unless
the stripped, lowered confirmation is exactly `"y"`; otherwise keep
the records whose stripped roll differs and save. -/
def delete_student (students : List Student)
    (rollInput confirmInput : Str) : DeleteResult :=
  let roll := pyStrip rollInput
  if roll = [] then .emptyRoll
  else
    match find_by_roll students roll with
    | none => .notFound
    | some _ =>
      let confirm := pyLower (pyStrip confirmInput)
      if confirm = ['y'] then
        .saved (students.filter (fun s => pyStrip s.roll ≠ roll))
      else .cancelled

/-- Bool test: is `need` a prefix of `hay`? -/
def isPrefixB : Str → Str → Bool
  | [], _ => true
  | _ :: _, [] => false
  | a :: as, b :: bs => a = b && isPrefixB as bs

/-- Python `need in hay` substring containment on strings. -/
def containsSub (hay need : Str) : Bool :=
  if isPrefixB need hay then true
  else
    match hay with
    | [] => false
    | _ :: t => containsSub t need

/-- Specification-side predicate (from the claim's wording, to be
compared with the code's `containsSub`): `needle` occurs as a substring
of `hay`. -/
def occursIn (needle hay : Str) : Prop :=
  ∃ l r, hay = l ++ needle ++ r

/-- Specification-side predicate: a record matches a (lowered) query
when the query occurs in its lowered roll or its lowered name. -/
def matchesQuery (q : Str) (s : Student) : Prop :=
  occursIn q (pyLower s.roll) ∨ occursIn q (pyLower s.name)

/-- Outcome of `search_student`.  The operation never writes the store
(no constructor carries a store). -/
inductive SearchResult where
  | emptyQuery
  | noMatches
  | found (results : List Student)
deriving DecidableEq, Repr

/-- Python `search_student()` (src lines 132-152): the query is
stripped then lowered; a record matches when the query occurs in the
lowered roll or the lowered name; matches are collected in store order;
an empty result list prints "No matching student records found.". -/
def search_student (students : List Student) (queryInput : Str) :
    SearchResult :=
  let query := pyLower (pyStrip queryInput)
  if query = [] then .emptyQuery
  else
    let results := students.filter (fun s =>
      containsSub (pyLower s.roll) query || containsSub (pyLower s.name) query)
    if results = [] then .noMatches
    else .found results

/-- Roll key used by the numeric sort branch of `list_students`
(defined for every record; the branch is only taken when every roll
parses). -/
def rollIntKey (s : Student) : ℤ := (pyInt? s.roll).getD 0

/-- Python string comparison `a < b`: lexicographic by code point, a
proper prefix is smaller. -/
def strLt : Str → Str → Bool
  | _, [] => false
  | [], _ :: _ => true
  | a :: as, b :: bs =>
    if a < b then true else if b < a then false else strLt as bs

/-- Outcome of `list_students`.  The tabular header is printed only in
the `table` branch; the empty-store branch prints "No student records
yet." and returns before the header. -/
inductive ListResult where
  | noRecords
  | table (rows : List Student)
deriving DecidableEq, Repr

/-- Relation of the numeric sort: compare parsed rolls. -/
def rollIntLe (s t : Student) : Prop := rollIntKey s ≤ rollIntKey t

/-- Relation of the fallback string sort: lexicographic rolls. -/
def rollStrLe (s t : Student) : Prop := strLt t.roll s.roll = false

instance : DecidableRel rollIntLe := fun s t =>
  inferInstanceAs (Decidable (rollIntKey s ≤ rollIntKey t))

instance : DecidableRel rollStrLe := fun s t =>
  inferInstanceAs (Decidable (strLt t.roll s.roll = false))

/-- Python `list_students()` (src lines 155-171): empty store prints
"no records" and returns with no header; otherwise
`students.sort(key=lambda x: int(x["roll"]))` is attempted — CPython
computes all keys before reordering, so if any `int()` raises the list
is still in its original order and the `except` branch sorts it by the
roll string.  Both sorts are stable; they are embedded by the stable
`List.insertionSort` under the corresponding total preorder. -/
def list_students (students : List Student) : ListResult :=
  match students with
  | [] => .noRecords
  | _ :: _ =>
    if students.all (fun s => (pyInt? s.roll).isSome) then
      .table (students.insertionSort rollIntLe)
    else
      .table (students.insertionSort rollStrLe)

/-- Outcome of `edit_student`. -/
inductive EditResult where
  | emptyRoll
  | notFound
  | invalidMarks
  | saved (students : List Student)
deriving DecidableEq, Repr

/-- Update the first record whose stripped roll equals `roll` (the
`for s in students: ... break` loop of `edit_student`). -/
def updateFirst (roll newName newMarks : Str) :
    List Student → List Student
  | [] => []
  | s :: t =>
    if pyStrip s.roll = roll then ⟨s.roll, newName, newMarks⟩ :: t
    else s :: updateFirst roll newName newMarks t

/-- Python `edit_student()` (src lines 174-210): strip the roll; abort
on empty or not found; an empty new-name input keeps the old name; an
empty marks input keeps the old marks string, any other marks input
must parse as a float in [0, 100] or the whole edit aborts before any
record is touched; on success the first matching record is updated and
the store saved. -/
def edit_student (students : List Student)
    (rollInput nameInput marksInput : Str) : EditResult :=
  let roll := pyStrip rollInput
  if roll = [] then .emptyRoll
  else
    match find_by_roll students roll with
    | none => .notFound
    | some student =>
      let new_name :=
        if pyStrip nameInput = [] then student.name else pyStrip nameInput
      let marks_input := pyStrip marksInput
      if marks_input = [] then
        .saved (updateFirst roll new_name student.marks students)
      else
        match pyFloat? marks_input with
        | none => .invalidMarks
        | some new_marks =>
          if new_marks < 0 ∨ new_marks > 100 then .invalidMarks
          else
            .saved (updateFirst roll new_name (formatMarks new_marks) students)

/-- Round half to even (Python `round` tie behaviour) to an integer. -/
def roundHalfEven (q : ℚ) : ℤ :=
  let f := ⌊q⌋
  let frac := q - f
  if frac < 1 / 2 then f
  else if frac > 1 / 2 then f + 1
  else if f % 2 = 0 then f else f + 1

/-- Python `round(q, 2)` on the exact rational (Python rounds the
nearest IEEE double; on the exact decimals of this embedding the two
agree except on values whose double approximation crosses a tie). -/
def roundTo2 (q : ℚ) : ℚ := (roundHalfEven (q * 100) : ℚ) / 100

/-- Outcome of `topper_and_average`.  `error` is an uncaught Python
exception escaping the operation. -/
inductive StatsResult where
  | noRecords
  | error
  | ok (avg maxMarks : ℚ) (toppers : List Student)
deriving DecidableEq, Repr

/-- Marks value used while building `marks_list`: `float(s["marks"])`
with unparseable values replaced by `0.0` (the guarded loop, src lines
219-224). -/
def marksOrZero (s : Student) : ℚ := (pyFloat? s.marks).getD 0

/-- Maximum of a marks list (Python `max`, list known nonempty). -/
def listMax : ℚ → List ℚ → ℚ
  | m, [] => m
  | m, x :: t => listMax (max m x) t

/-- Python `topper_and_average()` (src lines 213-242): empty store
aborts; `marks_list` substitutes 0.0 for unparseable marks; the average
is `round(sum / len, 2)`; `max_marks = max(marks_list)`; the topper
comprehension then calls `float(s.get("marks", 0))` WITHOUT a guard, so
it raises `ValueError` as soon as any record's marks fails to parse —
that is the `error` outcome.  When every marks parses, the toppers are
exactly the records whose parsed marks equals the maximum. -/
def topper_and_average (students : List Student) : StatsResult :=
  match students with
  | [] => .noRecords
  | s0 :: rest =>
    let marks_list := (s0 :: rest).map marksOrZero
    let total := marks_list.foldl (· + ·) (0 : ℚ)
    let avg := total / (marks_list.length : ℚ)
    let avg_rounded := roundTo2 avg
    let max_marks := listMax (marksOrZero s0) (rest.map marksOrZero)
    if (s0 :: rest).all (fun s => (pyFloat? s.marks).isSome) then
      .ok avg_rounded max_marks
        ((s0 :: rest).filter (fun s => pyFloat? s.marks = some max_marks))
    else .error

/-- Does a field need CSV quoting under `QUOTE_MINIMAL` for the excel
dialect: it contains the delimiter, the quote char, or a line
terminator character. -/
def needsQuote (f : Str) : Bool :=
  f.any (fun c => c = ',' || c = '"' || c = '\r' || c = '\n')

/-- Double every quote character (CSV `doublequote` escaping). -/
def escQ : Str → Str
  | [] => []
  | c :: t => if c = '"' then '"' :: '"' :: escQ t else c :: escQ t

/-- Serialize one field as `csv.writer` does: quote and escape when
needed, else write verbatim. -/
def quoteField (f : Str) : Str :=
  if needsQuote f then '"' :: (escQ f ++ ['"']) else f

/-- Serialize one row: fields joined by the `,` delimiter. -/
def writeRow : List Str → Str
  | [] => []
  | [f] => quoteField f
  | f :: g :: t => quoteField f ++ ',' :: writeRow (g :: t)

/-- The csv module's default line terminator. -/
def CRLF : Str := ['\r', '\n']

/-- The header row written by `csv.DictWriter.writeheader` with
`FIELDNAMES = ["roll", "name", "marks"]`. -/
def headerFields : List Str := ["roll".data, "name".data, "marks".data]

/-- Python `save_students(students)` (src lines 52-58), with the file
content made explicit: the header row then one row per record, each
terminated by CRLF. -/
def save_students (students : List Student) : Str :=
  writeRow headerFields ++ CRLF ++
    (students.map (fun s => writeRow [s.roll, s.name, s.marks] ++ CRLF)).foldr
      (· ++ ·) []

/-- Split file content into lines at CRLF terminators (the terminator
the writer of this program emits; quoted fields containing a literal
CRLF sequence are outside this embedding of the reader). -/
def splitLines : Str → List Str
  | [] => []
  | '\r' :: '\n' :: t => [] :: splitLines t
  | c :: t =>
    match splitLines t with
    | [] => [[c]]
    | l :: ls => (c :: l) :: ls

/-- State of the CSV field scanner: in an unquoted field, inside a
quoted section, or just after a closing quote (where a further quote
char is a literal doubled quote). -/
inductive ScanState where
  | uq
  | inq
  | afterq
deriving DecidableEq, Repr

/-- CSV field scanner for one line (excel dialect, `doublequote`):
walks the characters with the scanner state, the field built so far and
the fields already finished.  A quote char opens quoting only at field
start, `""` inside quoting is a literal quote, a lone quote inside
quoting closes it; an unterminated quote at end of line fails. -/
def scanLine : Str → ScanState → Str → List Str → Option (List Str)
  | [], .inq, _, _ => none
  | [], .uq, cur, acc => some (acc ++ [cur])
  | [], .afterq, cur, acc => some (acc ++ [cur])
  | c :: t, .inq, cur, acc =>
    if c = '"' then scanLine t .afterq cur acc
    else scanLine t .inq (cur ++ [c]) acc
  | c :: t, .afterq, cur, acc =>
    if c = '"' then scanLine t .inq (cur ++ ['"']) acc
    else if c = ',' then scanLine t .uq [] (acc ++ [cur])
    else scanLine t .uq (cur ++ [c]) acc
  | c :: t, .uq, cur, acc =>
    if c = '"' then
      if cur = [] then scanLine t .inq cur acc
      else scanLine t .uq (cur ++ ['"']) acc
    else if c = ',' then scanLine t .uq [] (acc ++ [cur])
    else scanLine t .uq (cur ++ [c]) acc

/-- Parse one CSV line into its fields. -/
def parseFields (line : Str) : Option (List Str) :=
  scanLine line .uq [] []

/-- Parse a list of lines into rows, skipping blank lines as
`csv.DictReader` does. -/
def parseLinesToRows : List Str → Option (List (List Str))
  | [] => some []
  | l :: ls =>
    match l with
    | [] => parseLinesToRows ls
    | _ :: _ =>
      match parseFields l, parseLinesToRows ls with
      | some r, some rs => some (r :: rs)
      | _, _ => none

/-- Turn data rows into records.  A row must carry exactly the three
fields of the schema; `csv.DictReader` pads or collects other widths
with `None` values, on which every downstream use (`.strip()` etc.)
raises, so such rows are outside the well-formed fragment. -/
def rowsToStudents : List (List Str) → Option (List Student)
  | [] => some []
  | [r, n, m] :: t =>
    match rowsToStudents t with
    | some ss => some (⟨r, n, m⟩ :: ss)
    | none => none
  | _ => none

/-- Python `load_students()` (src lines 44-49), with the file content
made explicit.  `csv.DictReader` takes the first row as the field
names; the code then indexes records by `roll`/`name`/`marks`, so a
well-formed store has exactly that header.  An empty file yields no
records. -/
def load_students (content : Str) : Option (List Student) :=
  match parseLinesToRows (splitLines content) with
  | none => none
  | some [] => some []
  | some (header :: dataRows) =>
    if header = headerFields then rowsToStudents dataRows else none

/-- Fields that survive the line-splitting of this embedding of the
reader: no carriage return and no newline (such a string is
representable in a single delimited row). -/
def fieldOk (f : Str) : Prop := '\r' ∉ f ∧ '\n' ∉ f

instance (f : Str) : Decidable (fieldOk f) :=
  inferInstanceAs (Decidable (_ ∧ _))

/-- All three fields of a record are representable in a row. -/
def studentOk (s : Student) : Prop :=
  fieldOk s.roll ∧ fieldOk s.name ∧ fieldOk s.marks

instance (s : Student) : Decidable (studentOk s) :=
  inferInstanceAs (Decidable (_ ∧ _))

/-! ## General lemmas -/

theorem foldl_max_init_le {α : Type} [LinearOrder α] :
    ∀ (l : List α) (m : α), m ≤ l.foldl max m := by
  intro l
  induction l with
  | nil => intro m; exact le_refl m
  | cons x t ih =>
    intro m
    exact le_trans (le_max_left m x) (ih (max m x))

theorem foldl_max_le_of_mem {α : Type} [LinearOrder α] :
    ∀ (l : List α) (m x : α), x ∈ l → x ≤ l.foldl max m := by
  intro l
  induction l with
  | nil => intro m x hx; simp at hx
  | cons a t ih =>
    intro m x hx
    rcases List.mem_cons.1 hx with h | h
    · subst h
      exact le_trans (le_max_right m x) (foldl_max_init_le t (max m x))
    · exact ih (max m a) x h

theorem foldl_max_mem_or {α : Type} [LinearOrder α] :
    ∀ (l : List α) (m : α), l.foldl max m = m ∨ l.foldl max m ∈ l := by
  intro l
  induction l with
  | nil => intro m; left; rfl
  | cons a t ih =>
    intro m
    rcases ih (max m a) with h | h
    · rcases max_choice m a with hm | hm
      · left; simp only [List.foldl_cons]; rw [h, hm]
      · right; simp only [List.foldl_cons]; rw [h, hm]; exact List.mem_cons_self a t
    · right; exact List.mem_cons_of_mem a h

/-! ## Lemmas about `pyStrip` -/

theorem dropWhile_head?_false (p : Char → Bool) :
    ∀ (l : Str) (c : Char), (l.dropWhile p).head? = some c → p c = false := by
  intro l
  induction l with
  | nil => intro c h; simp at h
  | cons a t ih =>
    intro c h
    rw [List.dropWhile_cons] at h
    by_cases hpa : p a = true
    · rw [if_pos hpa] at h; exact ih c h
    · rw [if_neg hpa] at h
      simp only [List.head?_cons, Option.some.injEq] at h
      subst h
      exact Bool.not_eq_true _ ▸ hpa

theorem dropWhile_eq_self_of_head (p : Char → Bool) (l : Str)
    (h : ∀ c, l.head? = some c → p c = false) : l.dropWhile p = l := by
  cases l with
  | nil => rfl
  | cons a t =>
    have ha := h a rfl
    rw [List.dropWhile_cons, if_neg]
    simp [ha]

/-- Python `strip` is idempotent: stripping a stripped string does
nothing. -/
theorem pyStrip_idem (s : Str) : pyStrip (pyStrip s) = pyStrip s := by
  unfold pyStrip
  have hA : ∀ c, (s.dropWhile isPySpace).head? = some c → isPySpace c = false :=
    dropWhile_head?_false isPySpace s
  have hB : ∀ c,
      ((s.dropWhile isPySpace).reverse.dropWhile isPySpace).head? = some c →
        isPySpace c = false :=
    dropWhile_head?_false isPySpace (s.dropWhile isPySpace).reverse
  have h1 : ((s.dropWhile isPySpace).reverse.dropWhile isPySpace).reverse.dropWhile
      isPySpace = ((s.dropWhile isPySpace).reverse.dropWhile isPySpace).reverse := by
    apply dropWhile_eq_self_of_head
    intro c hc
    rw [List.head?_reverse] at hc
    rcases (List.dropWhile_suffix (l := (s.dropWhile isPySpace).reverse)
        isPySpace) with ⟨t, ht⟩
    have hBne : (s.dropWhile isPySpace).reverse.dropWhile isPySpace ≠ [] := by
      intro hnil
      rw [hnil] at hc
      simp at hc
    have hlast : (t ++ (s.dropWhile isPySpace).reverse.dropWhile isPySpace).getLast? =
        ((s.dropWhile isPySpace).reverse.dropWhile isPySpace).getLast? :=
      List.getLast?_append_of_ne_nil t hBne
    rw [ht, hc] at hlast
    rw [List.getLast?_eq_head?_reverse, List.reverse_reverse] at hlast
    exact hA c hlast
  rw [h1, List.reverse_reverse]
  have h2 : ((s.dropWhile isPySpace).reverse.dropWhile isPySpace).dropWhile
      isPySpace = (s.dropWhile isPySpace).reverse.dropWhile isPySpace :=
    dropWhile_eq_self_of_head isPySpace _ hB
  rw [h2]

/-! ## Lemmas about `numericRollOf` -/

theorem numericRollOf_eq_some {s : Student} {m : ℕ} :
    numericRollOf s = some m ↔
      isdigitStr (pyStrip s.roll) = true ∧ digitsToNat (pyStrip s.roll) = m := by
  show (if isdigitStr (pyStrip s.roll) = true then some (digitsToNat (pyStrip s.roll))
      else none) = some m ↔ _
  split
  · simp_all
  · simp_all

theorem numericRollOf_eq_none {s : Student} :
    numericRollOf s = none ↔ isdigitStr (pyStrip s.roll) = false := by
  show (if isdigitStr (pyStrip s.roll) = true then some (digitsToNat (pyStrip s.roll))
      else none) = none ↔ _
  split
  · simp_all
  · simp_all

/-! ## Claim C1 -/

/-- Claim C1: for every list of existing records, `generate_roll`
returns `"1001"` when the list is empty; otherwise, if at least one
record's trimmed roll field is a digit string, it returns the string
form of (maximum such numeric roll) + 1; and if no record has a numeric
roll, it returns the string form of `START_ROLL` (1001) plus the count
of existing records. -/
theorem C1_generate_roll_spec :
    (generate_roll [] = "1001".data) ∧
    (∀ (students : List Student) (s₀ : Student), s₀ ∈ students →
      isdigitStr (pyStrip s₀.roll) = true →
      ∃ m : ℕ,
        (∃ s ∈ students, isdigitStr (pyStrip s.roll) = true ∧
          digitsToNat (pyStrip s.roll) = m) ∧
        (∀ s ∈ students, isdigitStr (pyStrip s.roll) = true →
          digitsToNat (pyStrip s.roll) ≤ m) ∧
        generate_roll students = natStr (m + 1)) ∧
    (∀ students : List Student, students ≠ [] →
      (∀ s ∈ students, isdigitStr (pyStrip s.roll) = false) →
      generate_roll students = natStr (START_ROLL + students.length)) := by
  refine ⟨by decide, ?_, ?_⟩
  · intro students s₀ hs₀ hdig
    cases students with
    | nil => simp at hs₀
    | cons a as =>
      have hmem : digitsToNat (pyStrip s₀.roll) ∈ (a :: as).filterMap numericRollOf :=
        List.mem_filterMap.2 ⟨s₀, hs₀, numericRollOf_eq_some.2 ⟨hdig, rfl⟩⟩
      cases hL : (a :: as).filterMap numericRollOf with
      | nil => rw [hL] at hmem; simp at hmem
      | cons m0 ms =>
        refine ⟨ms.foldl max m0, ?_, ?_, ?_⟩
        · have hin : ms.foldl max m0 ∈ (a :: as).filterMap numericRollOf := by
            rw [hL]
            rcases foldl_max_mem_or ms m0 with h | h
            · rw [h]; exact List.mem_cons_self m0 ms
            · exact List.mem_cons_of_mem m0 h
          rcases List.mem_filterMap.1 hin with ⟨s, hs, hval⟩
          rcases numericRollOf_eq_some.1 hval with ⟨h1, h2⟩
          exact ⟨s, hs, h1, h2⟩
        · intro s hs h1
          have hin : digitsToNat (pyStrip s.roll) ∈ (a :: as).filterMap numericRollOf :=
            List.mem_filterMap.2 ⟨s, hs, numericRollOf_eq_some.2 ⟨h1, rfl⟩⟩
          rw [hL] at hin
          rcases List.mem_cons.1 hin with h | h
          · rw [h]; exact foldl_max_init_le ms m0
          · exact foldl_max_le_of_mem ms m0 _ h
        · simp only [generate_roll]
          rw [hL]
  · intro students hne hall
    cases students with
    | nil => exact absurd rfl hne
    | cons a as =>
      have hL : (a :: as).filterMap numericRollOf = [] := by
        rw [List.filterMap_eq_nil_iff]
        intro s hs
        exact numericRollOf_eq_none.2 (hall s hs)
      simp only [generate_roll]
      rw [hL]

/-- Concrete check of C1: on the store with rolls "1001", " 1007 " and
"abc", the maximum numeric roll is 1007 and the next roll is "1008";
on a store of two non-numeric rolls the fallback gives "1003". -/
theorem C1_generate_roll_spec_witness :
    (∃ m : ℕ,
      (∃ s ∈ [Student.mk "1001".data "A".data "50".data,
              Student.mk " 1007 ".data "B".data "60".data,
              Student.mk "abc".data "C".data "70".data],
        isdigitStr (pyStrip s.roll) = true ∧ digitsToNat (pyStrip s.roll) = m) ∧
      (∀ s ∈ [Student.mk "1001".data "A".data "50".data,
              Student.mk " 1007 ".data "B".data "60".data,
              Student.mk "abc".data "C".data "70".data],
        isdigitStr (pyStrip s.roll) = true → digitsToNat (pyStrip s.roll) ≤ m) ∧
      generate_roll
        [Student.mk "1001".data "A".data "50".data,
         Student.mk " 1007 ".data "B".data "60".data,
         Student.mk "abc".data "C".data "70".data] = natStr (m + 1)) ∧
    generate_roll
      [Student.mk "x".data "A".data "50".data,
       Student.mk "y".data "B".data "60".data] =
      natStr (START_ROLL + 2) :=
  ⟨C1_generate_roll_spec.2.1
      [Student.mk "1001".data "A".data "50".data,
       Student.mk " 1007 ".data "B".data "60".data,
       Student.mk "abc".data "C".data "70".data]
      (Student.mk "1001".data "A".data "50".data)
      (by decide) (by decide),
    C1_generate_roll_spec.2.2
      [Student.mk "x".data "A".data "50".data,
       Student.mk "y".data "B".data "60".data]
      (by decide) (by decide)⟩

/-! ## Claim C4 -/

/-- Claim C4: `add_student` rejects and performs no write when the
entered name is empty after trimming whitespace, when the marks string
fails to parse as a number, or when it parses strictly below 0 or
strictly above 100 (in particular marks "101" is rejected with no row
appended); values parsing into [0, 100] — 0 and 100 included — are
accepted and exactly one row is appended. -/
theorem C4_add_student_validation :
    (∀ (students : List Student) (nIn mIn : Str), pyStrip nIn = [] →
      add_student students nIn mIn = .emptyName) ∧
    (∀ (students : List Student) (nIn mIn : Str), pyStrip nIn ≠ [] →
      pyFloat? (pyStrip mIn) = none →
      add_student students nIn mIn = .invalidMarks) ∧
    (∀ (students : List Student) (nIn mIn : Str) (q : ℚ), pyStrip nIn ≠ [] →
      pyFloat? (pyStrip mIn) = some q → (q < 0 ∨ 100 < q) →
      add_student students nIn mIn = .invalidMarks) ∧
    (∀ (students : List Student) (nIn : Str), pyStrip nIn ≠ [] →
      add_student students nIn "101".data = .invalidMarks) ∧
    (∀ (students : List Student) (nIn mIn : Str) (q : ℚ), pyStrip nIn ≠ [] →
      pyFloat? (pyStrip mIn) = some q → 0 ≤ q → q ≤ 100 →
      add_student students nIn mIn =
        .saved (students ++ [⟨generate_roll students, pyStrip nIn, formatMarks q⟩])) := by
  have habort : ∀ (students : List Student) (nIn mIn : Str) (q : ℚ),
      pyStrip nIn ≠ [] → pyFloat? (pyStrip mIn) = some q → (q < 0 ∨ 100 < q) →
      add_student students nIn mIn = .invalidMarks := by
    intro students nIn mIn q hn hm hq
    simp only [add_student, if_neg hn, hm]
    rw [if_pos hq]
  refine ⟨?_, ?_, habort, ?_, ?_⟩
  · intro students nIn mIn hn
    simp only [add_student, if_pos hn]
  · intro students nIn mIn hn hm
    simp only [add_student, if_neg hn, hm]
  · intro students nIn hn
    exact habort students nIn "101".data 101 hn (by decide) (Or.inr (by norm_num))
  · intro students nIn mIn q hn hm h0 h100
    have hno : ¬(q < 0 ∨ q > 100) := by
      push_neg
      exact ⟨h0, h100⟩
    simp only [add_student, if_neg hn, hm, if_neg hno]

/-- Concrete check of C4: on an empty store, a blank name aborts,
marks "abc" and "101" abort, and marks "100" appends the record with
roll "1001" and marks "100". -/
theorem C4_add_student_validation_witness :
    add_student [] "  ".data "50".data = .emptyName ∧
    add_student [] "Bob".data "abc".data = .invalidMarks ∧
    add_student [] "Bob".data "101".data = .invalidMarks ∧
    add_student [] "Bob".data "100".data =
      .saved [⟨generate_roll [], pyStrip "Bob".data, formatMarks 100⟩] :=
  ⟨C4_add_student_validation.1 [] "  ".data "50".data (by decide),
    C4_add_student_validation.2.1 [] "Bob".data "abc".data (by decide) (by decide),
    C4_add_student_validation.2.2.2.1 [] "Bob".data (by decide),
    C4_add_student_validation.2.2.2.2 [] "Bob".data "100".data 100
      (by decide) (by decide) (by norm_num) (by norm_num)⟩

/-! ## Claim C3 -/

/-- Claim C3: for every store and every edit of an existing roll, if a
new marks string is supplied and either fails to parse as a number or
parses outside [0, 100], the entire edit aborts with no write to the
store (outcome `invalidMarks`, which carries no store), so any new name
entered in the same edit is discarded and the stored record keeps both
its original name and marks — the edit is all-or-nothing. -/
theorem C3_edit_invalid_marks_aborts :
    ∀ (students : List Student) (rIn nIn mIn : Str) (st : Student),
      pyStrip rIn ≠ [] →
      find_by_roll students (pyStrip rIn) = some st →
      pyStrip mIn ≠ [] →
      (pyFloat? (pyStrip mIn) = none ∨
        ∃ q : ℚ, pyFloat? (pyStrip mIn) = some q ∧ (q < 0 ∨ 100 < q)) →
      edit_student students rIn nIn mIn = .invalidMarks := by
  intro students rIn nIn mIn st hr hfind hm hbad
  rcases hbad with hnone | ⟨q, hq, hout⟩
  · simp only [edit_student, if_neg hr, hfind, if_neg hm, hnone]
  · simp only [edit_student, if_neg hr, hfind, if_neg hm, hq]
    rw [if_pos hout]

/-- Concrete check of C3: editing roll "1001" with a new name "Zed"
and marks "abc" (unparseable) or "101" (out of range) aborts with no
write. -/
theorem C3_edit_invalid_marks_aborts_witness :
    edit_student [⟨"1001".data, "Alice".data, "50".data⟩]
      "1001".data "Zed".data "abc".data = .invalidMarks ∧
    edit_student [⟨"1001".data, "Alice".data, "50".data⟩]
      "1001".data "Zed".data "101".data = .invalidMarks :=
  ⟨C3_edit_invalid_marks_aborts [⟨"1001".data, "Alice".data, "50".data⟩]
      "1001".data "Zed".data "abc".data ⟨"1001".data, "Alice".data, "50".data⟩
      (by decide) (by decide) (by decide) (Or.inl (by decide)),
    C3_edit_invalid_marks_aborts [⟨"1001".data, "Alice".data, "50".data⟩]
      "1001".data "Zed".data "101".data ⟨"1001".data, "Alice".data, "50".data⟩
      (by decide) (by decide) (by decide)
      (Or.inr ⟨101, by decide, Or.inr (by norm_num)⟩)⟩

/-! ## Claim C5 -/

/-- Claim C5: `delete_student` leaves the store unchanged (no write)
when the trimmed roll is empty, when no record's trimmed roll equals
it, or when the stripped lowered confirmation is anything other than
"y"; on affirmative confirmation it removes every record whose trimmed
roll equals the input and keeps the remaining records in their original
order (the saved list is the matching-free sublist of the store). -/
theorem C5_delete_student_guards :
    (∀ (students : List Student) (rIn cIn : Str), pyStrip rIn = [] →
      delete_student students rIn cIn = .emptyRoll) ∧
    (∀ (students : List Student) (rIn cIn : Str), pyStrip rIn ≠ [] →
      (∀ s ∈ students, pyStrip s.roll ≠ pyStrip rIn) →
      delete_student students rIn cIn = .notFound) ∧
    (∀ (students : List Student) (rIn cIn : Str) (st : Student),
      pyStrip rIn ≠ [] →
      find_by_roll students (pyStrip rIn) = some st →
      pyLower (pyStrip cIn) ≠ ['y'] →
      delete_student students rIn cIn = .cancelled) ∧
    (∀ (students : List Student) (rIn cIn : Str) (st : Student),
      pyStrip rIn ≠ [] →
      find_by_roll students (pyStrip rIn) = some st →
      pyLower (pyStrip cIn) = ['y'] →
      ∃ out, delete_student students rIn cIn = .saved out ∧
        out = students.filter (fun s => pyStrip s.roll ≠ pyStrip rIn) ∧
        out.Sublist students ∧
        ∀ s ∈ out, pyStrip s.roll ≠ pyStrip rIn) := by
  refine ⟨?_, ?_, ?_, ?_⟩
  · intro students rIn cIn hr
    simp only [delete_student, if_pos hr]
  · intro students rIn cIn hr hnone
    have hfind : find_by_roll students (pyStrip rIn) = none := by
      unfold find_by_roll
      rw [List.find?_eq_none]
      intro s hs
      simp only [decide_eq_true_eq]
      exact fun h => hnone s hs (by rw [h, pyStrip_idem])
    simp only [delete_student, if_neg hr, hfind]
  · intro students rIn cIn st hr hfind hc
    simp only [delete_student, if_neg hr, hfind]
    rw [if_neg hc]
  · intro students rIn cIn st hr hfind hc
    refine ⟨students.filter (fun s => pyStrip s.roll ≠ pyStrip rIn), ?_, rfl, ?_, ?_⟩
    · simp only [delete_student, if_neg hr, hfind]
      rw [if_pos hc]
    · exact List.filter_sublist students
    · intro s hs
      have := (List.mem_filter.1 hs).2
      simpa using this

/-- Concrete check of C5: with the two-record store below, an empty
roll aborts, a missing roll reports not found, a confirmation of "n"
cancels, and confirmation " Y " removes the matching record and keeps
the other. -/
theorem C5_delete_student_guards_witness :
    delete_student [⟨"1001".data, "A".data, "50".data⟩]
      "  ".data "y".data = .emptyRoll ∧
    delete_student [⟨"1001".data, "A".data, "50".data⟩]
      "2000".data "y".data = .notFound ∧
    delete_student [⟨"1001".data, "A".data, "50".data⟩]
      "1001".data "n".data = .cancelled ∧
    (∃ out,
      delete_student
        [⟨"1001".data, "A".data, "50".data⟩, ⟨"1002".data, "B".data, "60".data⟩]
        "1001".data " Y ".data = .saved out ∧
      out = [⟨"1001".data, "A".data, "50".data⟩,
             ⟨"1002".data, "B".data, "60".data⟩].filter
          (fun s => pyStrip s.roll ≠ pyStrip "1001".data) ∧
      out.Sublist [⟨"1001".data, "A".data, "50".data⟩,
                   ⟨"1002".data, "B".data, "60".data⟩] ∧
      ∀ s ∈ out, pyStrip s.roll ≠ pyStrip "1001".data) :=
  ⟨C5_delete_student_guards.1 _ "  ".data "y".data (by decide),
    C5_delete_student_guards.2.1 _ "2000".data "y".data (by decide) (by decide),
    C5_delete_student_guards.2.2.1 _ "1001".data "n".data
      ⟨"1001".data, "A".data, "50".data⟩ (by decide) (by decide) (by decide),
    C5_delete_student_guards.2.2.2 _ "1001".data " Y ".data
      ⟨"1001".data, "A".data, "50".data⟩ (by decide) (by decide) (by decide)⟩

/-! ## Lemmas about `strLt` (Python string comparison) -/

theorem strLt_asymm : ∀ a b : Str, strLt a b = true → strLt b a = false := by
  intro a
  induction a with
  | nil =>
    intro b h
    cases b with
    | nil => simp [strLt] at h
    | cons y ys => simp [strLt]
  | cons x xs ih =>
    intro b h
    cases b with
    | nil => simp [strLt] at h
    | cons y ys =>
      simp only [strLt] at h ⊢
      rcases lt_trichotomy x y with hxy | hxy | hxy
      · rw [if_neg (not_lt.2 (le_of_lt hxy)), if_pos hxy]
      · subst hxy
        rw [if_neg (lt_irrefl x), if_neg (lt_irrefl x)] at h ⊢
        exact ih ys h
      · rw [if_neg (not_lt.2 (le_of_lt hxy)), if_pos hxy] at h
        exact absurd h (by simp)

theorem strLt_trans :
    ∀ a b c : Str, strLt a b = true → strLt b c = true → strLt a c = true := by
  intro a
  induction a with
  | nil =>
    intro b c hab hbc
    cases c with
    | nil =>
      cases b with
      | nil => exact hab
      | cons y ys => simp [strLt] at hbc
    | cons z zs => simp [strLt]
  | cons x xs ih =>
    intro b c hab hbc
    cases b with
    | nil => simp [strLt] at hab
    | cons y ys =>
      cases c with
      | nil => simp [strLt] at hbc
      | cons z zs =>
        simp only [strLt] at hab hbc ⊢
        rcases lt_trichotomy x y with hxy | hxy | hxy
        · rcases lt_trichotomy y z with hyz | hyz | hyz
          · rw [if_pos (lt_trans hxy hyz)]
          · subst hyz
            rw [if_pos hxy]
          · rw [if_neg (not_lt.2 (le_of_lt hyz)), if_pos hyz] at hbc
            exact absurd hbc (by simp)
        · subst hxy
          rw [if_neg (lt_irrefl x), if_neg (lt_irrefl x)] at hab
          rcases lt_trichotomy x z with hxz | hxz | hxz
          · rw [if_pos hxz]
          · subst hxz
            rw [if_neg (lt_irrefl x), if_neg (lt_irrefl x)] at hbc ⊢
            exact ih ys zs hab hbc
          · rw [if_neg (not_lt.2 (le_of_lt hxz)), if_pos hxz] at hbc
            exact absurd hbc (by simp)
        · rw [if_neg (not_lt.2 (le_of_lt hxy)), if_pos hxy] at hab
          exact absurd hab (by simp)

theorem strLt_false_iff :
    ∀ a b : Str, strLt a b = false ↔ (a = b ∨ strLt b a = true) := by
  intro a
  induction a with
  | nil =>
    intro b
    cases b with
    | nil => simp [strLt]
    | cons y ys => simp [strLt]
  | cons x xs ih =>
    intro b
    cases b with
    | nil => simp [strLt]
    | cons y ys =>
      simp only [strLt]
      rcases lt_trichotomy x y with hxy | hxy | hxy
      · rw [if_pos hxy, if_neg (not_lt.2 (le_of_lt hxy)), if_pos hxy]
        simp only [List.cons.injEq]
        constructor
        · intro h; exact absurd h (by simp)
        · rintro (⟨h1, _⟩ | h2)
          · exact absurd h1 (ne_of_lt hxy)
          · exact absurd h2 (by simp)
      · subst hxy
        rw [if_neg (lt_irrefl x), if_neg (lt_irrefl x), if_neg (lt_irrefl x),
          if_neg (lt_irrefl x)]
        simp only [List.cons.injEq, true_and]
        exact ih ys
      · rw [if_neg (not_lt.2 (le_of_lt hxy)), if_pos hxy, if_pos hxy]
        simp

theorem strLt_negtrans (a b c : Str) (hba : strLt b a = false)
    (hcb : strLt c b = false) : strLt c a = false := by
  rcases (strLt_false_iff b a).1 hba with h1 | h1
  · rcases (strLt_false_iff c b).1 hcb with h2 | h2
    · subst h1; subst h2; exact (strLt_false_iff _ _).2 (Or.inl rfl)
    · subst h1; exact (strLt_false_iff _ _).2 (Or.inr h2)
  · rcases (strLt_false_iff c b).1 hcb with h2 | h2
    · subst h2; exact (strLt_false_iff _ _).2 (Or.inr h1)
    · exact (strLt_false_iff _ _).2 (Or.inr (strLt_trans a b c h1 h2))

instance : IsTotal Student rollIntLe :=
  ⟨fun a b => le_total (rollIntKey a) (rollIntKey b)⟩

instance : IsTrans Student rollIntLe :=
  ⟨fun _ _ _ hab hbc => le_trans hab hbc⟩

instance : IsTotal Student rollStrLe := by
  constructor
  intro a b
  cases h : strLt b.roll a.roll with
  | false => exact Or.inl h
  | true => exact Or.inr (strLt_asymm b.roll a.roll h)

instance : IsTrans Student rollStrLe :=
  ⟨fun a b c hab hbc => strLt_negtrans a.roll b.roll c.roll hab hbc⟩

/-! ## Claim C6 -/

/-- Claim C6: `list_students` displays the records sorted numerically
by roll when every record's roll parses as an integer; if any roll
fails to parse, the entire set is sorted lexicographically as strings —
never a mixed or partial sort (each branch sorts the whole permutation
under a single order); on an empty store it reports no records (the
branch that prints no table header). -/
theorem C6_list_students_sorting :
    (list_students [] = .noRecords) ∧
    (∀ students : List Student, students ≠ [] →
      (∀ s ∈ students, (pyInt? s.roll).isSome = true) →
      ∃ out, list_students students = .table out ∧ out.Perm students ∧
        out.Pairwise (fun a b => ∀ x y : ℤ, pyInt? a.roll = some x →
          pyInt? b.roll = some y → x ≤ y)) ∧
    (∀ (students : List Student) (s₀ : Student), s₀ ∈ students →
      pyInt? s₀.roll = none →
      ∃ out, list_students students = .table out ∧ out.Perm students ∧
        out.Pairwise (fun a b => strLt b.roll a.roll = false)) := by
  refine ⟨rfl, ?_, ?_⟩
  · intro students hne hall
    have hall' : students.all (fun s => (pyInt? s.roll).isSome) = true :=
      List.all_eq_true.2 hall
    cases students with
    | nil => exact absurd rfl hne
    | cons a as =>
      refine ⟨(a :: as).insertionSort rollIntLe, ?_, ?_, ?_⟩
      · simp only [list_students]
        rw [if_pos hall']
      · exact List.perm_insertionSort rollIntLe (a :: as)
      · have hs : ((a :: as).insertionSort rollIntLe).Pairwise rollIntLe :=
          List.sorted_insertionSort rollIntLe (a :: as)
        refine hs.imp ?_
        intro u v huv x y hx hy
        have : rollIntKey u = x := by rw [rollIntKey, hx]; rfl
        have hv : rollIntKey v = y := by rw [rollIntKey, hy]; rfl
        rw [← this, ← hv]
        exact huv
  · intro students s₀ hs₀ hnone
    have hall' : ¬(students.all (fun s => (pyInt? s.roll).isSome) = true) := by
      intro h
      have := List.all_eq_true.1 h s₀ hs₀
      rw [hnone] at this
      simp at this
    cases students with
    | nil => simp at hs₀
    | cons a as =>
      refine ⟨(a :: as).insertionSort rollStrLe, ?_, ?_, ?_⟩
      · simp only [list_students]
        rw [if_neg hall']
      · exact List.perm_insertionSort rollStrLe (a :: as)
      · exact List.sorted_insertionSort rollStrLe (a :: as)

/-- Concrete check of C6: the empty store reports no records; the
store with numeric rolls "12", "2" lists sorted numerically; the store
with rolls "12", "x2" (one non-numeric) lists sorted as strings. -/
theorem C6_list_students_sorting_witness :
    list_students [] = .noRecords ∧
    (∃ out, list_students
        [⟨"12".data, "A".data, "1".data⟩, ⟨"2".data, "B".data, "2".data⟩] =
        .table out ∧
      out.Perm [⟨"12".data, "A".data, "1".data⟩, ⟨"2".data, "B".data, "2".data⟩] ∧
      out.Pairwise (fun a b => ∀ x y : ℤ, pyInt? a.roll = some x →
        pyInt? b.roll = some y → x ≤ y)) ∧
    (∃ out, list_students
        [⟨"12".data, "A".data, "1".data⟩, ⟨"x2".data, "B".data, "2".data⟩] =
        .table out ∧
      out.Perm [⟨"12".data, "A".data, "1".data⟩, ⟨"x2".data, "B".data, "2".data⟩] ∧
      out.Pairwise (fun a b => strLt b.roll a.roll = false)) :=
  ⟨C6_list_students_sorting.1,
    C6_list_students_sorting.2.1
      [⟨"12".data, "A".data, "1".data⟩, ⟨"2".data, "B".data, "2".data⟩]
      (by decide) (by decide),
    C6_list_students_sorting.2.2
      [⟨"12".data, "A".data, "1".data⟩, ⟨"x2".data, "B".data, "2".data⟩]
      ⟨"x2".data, "B".data, "2".data⟩ (by decide) (by decide)⟩

/-! ## Lemmas about substring containment -/

theorem isPrefixB_iff : ∀ n h : Str, isPrefixB n h = true ↔ ∃ r, h = n ++ r := by
  intro n
  induction n with
  | nil =>
    intro h
    simp [isPrefixB]
  | cons a as ih =>
    intro h
    cases h with
    | nil =>
      simp [isPrefixB]
    | cons b bs =>
      simp only [isPrefixB, Bool.and_eq_true, decide_eq_true_eq, ih bs,
        List.cons_append, List.cons.injEq]
      constructor
      · rintro ⟨hab, r, hr⟩
        exact ⟨r, hab.symm, hr⟩
      · rintro ⟨r, hab, hr⟩
        exact ⟨hab.symm, r, hr⟩

theorem containsSub_iff :
    ∀ h n : Str, containsSub h n = true ↔ occursIn n h := by
  intro h
  induction h with
  | nil =>
    intro n
    rw [containsSub]
    by_cases hp : isPrefixB n [] = true
    · rcases (isPrefixB_iff n []).1 hp with ⟨r, hr⟩
      rw [if_pos hp]
      simp only [true_iff]
      exact ⟨[], r, by simpa using hr⟩
    · rw [if_neg hp]
      refine iff_of_false (by simp) ?_
      rintro ⟨l, r, hlr⟩
      rcases List.append_eq_nil.1 hlr.symm with ⟨h1, h2⟩
      rcases List.append_eq_nil.1 h1 with ⟨h3, h4⟩
      exact hp ((isPrefixB_iff n []).2 ⟨[], by simp [h4]⟩)
  | cons b bs ih =>
    intro n
    rw [containsSub]
    by_cases hp : isPrefixB n (b :: bs) = true
    · rcases (isPrefixB_iff n (b :: bs)).1 hp with ⟨r, hr⟩
      rw [if_pos hp]
      simp only [true_iff]
      exact ⟨[], r, by simpa using hr⟩
    · rw [if_neg hp]
      rw [ih n]
      constructor
      · rintro ⟨l, r, hlr⟩
        exact ⟨b :: l, r, by simp [hlr]⟩
      · rintro ⟨l, r, hlr⟩
        cases l with
        | nil =>
          exact absurd ((isPrefixB_iff n (b :: bs)).2 ⟨r, by simpa using hlr⟩) hp
        | cons x l' =>
          simp only [List.cons_append, List.cons.injEq] at hlr
          exact ⟨l', r, hlr.2⟩

theorem matchB_iff (q : Str) (s : Student) :
    (containsSub (pyLower s.roll) q || containsSub (pyLower s.name) q) = true ↔
      matchesQuery q s := by
  rw [Bool.or_eq_true, containsSub_iff, containsSub_iff]
  rfl

/-! ## Claim C8 -/

/-- Claim C8: for every store and non-empty trimmed query, the search
operation returns exactly the records in which the lowercased query
occurs as a substring of the lowercased roll or name, in store order
(the result is the matching sublist of the store); a query with no
matches yields the explicit no-matches outcome instead of an empty
table.  The operation's outcome type carries no store: it performs no
write. -/
theorem C8_search_student_spec :
    (∀ (students : List Student) (qIn : Str), pyStrip qIn ≠ [] →
      (∃ s ∈ students, matchesQuery (pyLower (pyStrip qIn)) s) →
      ∃ res, search_student students qIn = .found res ∧
        res = students.filter (fun s =>
          containsSub (pyLower s.roll) (pyLower (pyStrip qIn)) ||
          containsSub (pyLower s.name) (pyLower (pyStrip qIn))) ∧
        res.Sublist students ∧
        (∀ s, s ∈ res ↔ s ∈ students ∧ matchesQuery (pyLower (pyStrip qIn)) s)) ∧
    (∀ (students : List Student) (qIn : Str), pyStrip qIn ≠ [] →
      (∀ s ∈ students, ¬ matchesQuery (pyLower (pyStrip qIn)) s) →
      search_student students qIn = .noMatches) := by
  constructor
  · intro students qIn hq hex
    have hqL : pyLower (pyStrip qIn) ≠ [] := by
      intro h
      exact hq (List.map_eq_nil_iff.1 h)
    rcases hex with ⟨s, hs, hm⟩
    have hsf : s ∈ students.filter (fun s =>
        containsSub (pyLower s.roll) (pyLower (pyStrip qIn)) ||
        containsSub (pyLower s.name) (pyLower (pyStrip qIn))) :=
      List.mem_filter.2 ⟨hs, (matchB_iff _ s).2 hm⟩
    have hne : students.filter (fun s =>
        containsSub (pyLower s.roll) (pyLower (pyStrip qIn)) ||
        containsSub (pyLower s.name) (pyLower (pyStrip qIn))) ≠ [] := by
      intro hnil
      rw [hnil] at hsf
      simp at hsf
    refine ⟨_, ?_, rfl, List.filter_sublist students, ?_⟩
    · simp only [search_student, if_neg hqL, if_neg hne]
    · intro t
      rw [List.mem_filter, matchB_iff]
  · intro students qIn hq hnone
    have hqL : pyLower (pyStrip qIn) ≠ [] := by
      intro h
      exact hq (List.map_eq_nil_iff.1 h)
    have hnil : students.filter (fun s =>
        containsSub (pyLower s.roll) (pyLower (pyStrip qIn)) ||
        containsSub (pyLower s.name) (pyLower (pyStrip qIn))) = [] := by
      rw [List.filter_eq_nil_iff]
      intro s hs
      rw [Bool.not_eq_true]
      cases hb : (containsSub (pyLower s.roll) (pyLower (pyStrip qIn)) ||
          containsSub (pyLower s.name) (pyLower (pyStrip qIn))) with
      | false => rfl
      | true => exact absurd ((matchB_iff _ s).1 hb) (hnone s hs)
    simp only [search_student, if_neg hqL, hnil, if_pos]

/-- Concrete check of C8: query "SS" (case-insensitive) matches record
name "Rossi"; query "zz" matches nothing and reports no matches. -/
theorem C8_search_student_spec_witness :
    (∃ res, search_student [⟨"1099".data, "Rossi".data, "50".data⟩]
        "SS".data = .found res ∧
      res = [⟨"1099".data, "Rossi".data, "50".data⟩].filter (fun s =>
        containsSub (pyLower s.roll) (pyLower (pyStrip "SS".data)) ||
        containsSub (pyLower s.name) (pyLower (pyStrip "SS".data))) ∧
      res.Sublist [⟨"1099".data, "Rossi".data, "50".data⟩] ∧
      (∀ s, s ∈ res ↔ s ∈ [⟨"1099".data, "Rossi".data, "50".data⟩] ∧
        matchesQuery (pyLower (pyStrip "SS".data)) s)) ∧
    search_student [⟨"1099".data, "Rossi".data, "50".data⟩] "zz".data =
      .noMatches :=
  ⟨C8_search_student_spec.1 [⟨"1099".data, "Rossi".data, "50".data⟩]
      "SS".data (by decide)
      ⟨⟨"1099".data, "Rossi".data, "50".data⟩, by decide,
        Or.inr ⟨"ro".data, "i".data, by decide⟩⟩,
    C8_search_student_spec.2 [⟨"1099".data, "Rossi".data, "50".data⟩]
      "zz".data (by decide)
      (by
        intro s hs hm
        have hs' : s = ⟨"1099".data, "Rossi".data, "50".data⟩ := by
          simpa using hs
        subst hs'
        have : (containsSub (pyLower (⟨"1099".data, "Rossi".data, "50".data⟩ :
            Student).roll) (pyLower (pyStrip "zz".data)) ||
            containsSub (pyLower (⟨"1099".data, "Rossi".data, "50".data⟩ :
            Student).name) (pyLower (pyStrip "zz".data))) = true :=
          (matchB_iff _ _).2 hm
        exact absurd this (by decide))⟩

/-! ## Claim C2 -/

theorem listMax_eq_foldl : ∀ (l : List ℚ) (m : ℚ), listMax m l = l.foldl max m := by
  intro l
  induction l with
  | nil => intro m; rfl
  | cons x t ih => intro m; simp only [listMax, List.foldl_cons]; exact ih (max m x)

theorem marksOrZero_of_some {s : Student} {q : ℚ}
    (h : pyFloat? s.marks = some q) : marksOrZero s = q := by
  rw [marksOrZero, h]
  rfl

/-- Claim C2 as stated is FALSE on the code: the topper comprehension
(src line 235) re-parses every record's marks with an unguarded
`float(...)`, so on the one-record store whose marks is "abc" the
operation raises `ValueError` (outcome `error`) instead of completing
with the marks treated as 0.0. -/
theorem C2_topper_crash_counterexample :
    topper_and_average [⟨"1001".data, "A".data, "abc".data⟩] = .error := by
  decide

/-- Claim C2, amended as the code forces: the average substitutes 0.0
for unparseable marks, but the operation completes only when every
record's marks parses — any unparseable marks makes the topper step
raise (outcome `error`).  When all marks parse, the average is
`round(sum / count, 2)` over all records and the toppers are exactly
the records whose parsed marks equals the maximum, under exact equality
of the parsed values. -/
theorem C2_topper_and_average_amended :
    (∀ students : List Student, students ≠ [] →
      (∀ s ∈ students, (pyFloat? s.marks).isSome = true) →
      ∃ maxM tops,
        topper_and_average students =
          .ok (roundTo2 ((students.map marksOrZero).sum / (students.length : ℚ)))
            maxM tops ∧
        (∃ s ∈ students, pyFloat? s.marks = some maxM) ∧
        (∀ s ∈ students, ∀ q : ℚ, pyFloat? s.marks = some q → q ≤ maxM) ∧
        tops = students.filter (fun s => pyFloat? s.marks = some maxM) ∧
        (∀ s, s ∈ tops ↔ s ∈ students ∧ pyFloat? s.marks = some maxM)) ∧
    (∀ students : List Student,
      (∃ s ∈ students, pyFloat? s.marks = none) →
      topper_and_average students = .error) := by
  constructor
  · intro students hne hall
    cases students with
    | nil => exact absurd rfl hne
    | cons s0 rest =>
      have hall' : (s0 :: rest).all (fun s => (pyFloat? s.marks).isSome) = true :=
        List.all_eq_true.2 hall
      refine ⟨listMax (marksOrZero s0) (rest.map marksOrZero),
        (s0 :: rest).filter (fun s => pyFloat? s.marks = some
          (listMax (marksOrZero s0) (rest.map marksOrZero))), ?_, ?_, ?_, rfl, ?_⟩
      · simp only [topper_and_average]
        rw [if_pos hall', List.sum_eq_foldl, List.length_map]
      · have hmem : listMax (marksOrZero s0) (rest.map marksOrZero) =
            marksOrZero s0 ∨
            listMax (marksOrZero s0) (rest.map marksOrZero) ∈
              rest.map marksOrZero := by
          rw [listMax_eq_foldl]
          exact foldl_max_mem_or (rest.map marksOrZero) (marksOrZero s0)
        have : ∃ s ∈ s0 :: rest,
            marksOrZero s = listMax (marksOrZero s0) (rest.map marksOrZero) := by
          rcases hmem with h | h
          · exact ⟨s0, List.mem_cons_self s0 rest, h.symm⟩
          · rcases List.mem_map.1 h with ⟨s, hs, hval⟩
            exact ⟨s, List.mem_cons_of_mem s0 hs, hval⟩
        rcases this with ⟨s, hs, hval⟩
        have hsome := hall s hs
        refine ⟨s, hs, ?_⟩
        rcases Option.isSome_iff_exists.1 hsome with ⟨q, hq⟩
        rw [hq]
        rw [marksOrZero_of_some hq] at hval
        rw [hval]
      · intro s hs q hq
        have : marksOrZero s = q := marksOrZero_of_some hq
        rw [← this, listMax_eq_foldl]
        rcases List.mem_cons.1 hs with h | h
        · rw [h]
          exact foldl_max_init_le (rest.map marksOrZero) (marksOrZero s0)
        · exact foldl_max_le_of_mem (rest.map marksOrZero) (marksOrZero s0)
            (marksOrZero s) (List.mem_map.2 ⟨s, h, rfl⟩)
      · intro s
        rw [List.mem_filter, decide_eq_true_eq]
  · intro students hbad
    rcases hbad with ⟨s, hs, hnone⟩
    cases students with
    | nil => simp at hs
    | cons s0 rest =>
      have hall' : ¬((s0 :: rest).all (fun s => (pyFloat? s.marks).isSome) = true) := by
        intro h
        have := List.all_eq_true.1 h s hs
        rw [hnone] at this
        simp at this
      simp only [topper_and_average]
      rw [if_neg hall']

/-- Concrete check of the amended C2: on the spec's example store with
marks 50, 90, 90, 30 the operation succeeds with a maximum that every
parsed marks is bounded by and with the toppers characterized by that
maximum; on a store containing marks "oops" the operation errors. -/
theorem C2_topper_and_average_amended_witness :
    (∃ maxM tops,
      topper_and_average
        [Student.mk "1001".data "A".data "50".data, Student.mk "1002".data "B".data "90".data,
         Student.mk "1003".data "C".data "90".data, Student.mk "1004".data "D".data "30".data] =
        .ok (roundTo2 (([Student.mk "1001".data "A".data "50".data,
            Student.mk "1002".data "B".data "90".data, Student.mk "1003".data "C".data "90".data,
            Student.mk "1004".data "D".data "30".data].map marksOrZero).sum / (4 : ℚ)))
          maxM tops ∧
      (∃ s ∈ [Student.mk "1001".data "A".data "50".data,
              Student.mk "1002".data "B".data "90".data,
              Student.mk "1003".data "C".data "90".data,
              Student.mk "1004".data "D".data "30".data], pyFloat? s.marks = some maxM) ∧
      (∀ s ∈ [Student.mk "1001".data "A".data "50".data,
              Student.mk "1002".data "B".data "90".data,
              Student.mk "1003".data "C".data "90".data,
              Student.mk "1004".data "D".data "30".data],
        ∀ q : ℚ, pyFloat? s.marks = some q → q ≤ maxM) ∧
      tops = [Student.mk "1001".data "A".data "50".data,
              Student.mk "1002".data "B".data "90".data,
              Student.mk "1003".data "C".data "90".data,
              Student.mk "1004".data "D".data "30".data].filter
          (fun s => pyFloat? s.marks = some maxM) ∧
      (∀ s, s ∈ tops ↔ s ∈ [Student.mk "1001".data "A".data "50".data,
              Student.mk "1002".data "B".data "90".data,
              Student.mk "1003".data "C".data "90".data,
              Student.mk "1004".data "D".data "30".data] ∧
        pyFloat? s.marks = some maxM)) ∧
    topper_and_average
      [Student.mk "1001".data "A".data "77".data, Student.mk "1002".data "B".data "oops".data] =
      .error :=
  ⟨C2_topper_and_average_amended.1
      [Student.mk "1001".data "A".data "50".data, Student.mk "1002".data "B".data "90".data,
       Student.mk "1003".data "C".data "90".data, Student.mk "1004".data "D".data "30".data]
      (by decide) (by decide),
    C2_topper_and_average_amended.2
      [Student.mk "1001".data "A".data "77".data, Student.mk "1002".data "B".data "oops".data]
      ⟨Student.mk "1002".data "B".data "oops".data, by decide, by decide⟩⟩

/-! ## Claim C9 -/

theorem find_by_roll_append (pre post : List Student) (x : Student) (r : Str)
    (hpre : ∀ s ∈ pre, pyStrip s.roll ≠ pyStrip r)
    (hx : pyStrip x.roll = pyStrip r) :
    find_by_roll (pre ++ x :: post) r = some x := by
  induction pre with
  | nil =>
    unfold find_by_roll
    simp only [List.nil_append]
    rw [List.find?_cons_of_pos]
    exact decide_eq_true hx
  | cons p pre' ih =>
    unfold find_by_roll
    simp only [List.cons_append]
    rw [List.find?_cons_of_neg]
    · exact ih (fun s hs => hpre s (List.mem_cons_of_mem p hs))
    · simp only [decide_eq_true_eq]
      exact hpre p (List.mem_cons_self p pre')

theorem updateFirst_append (pre post : List Student) (x : Student)
    (roll newName newMarks : Str)
    (hpre : ∀ s ∈ pre, pyStrip s.roll ≠ roll)
    (hx : pyStrip x.roll = roll) :
    updateFirst roll newName newMarks (pre ++ x :: post) =
      pre ++ ⟨x.roll, newName, newMarks⟩ :: post := by
  induction pre with
  | nil =>
    simp only [List.nil_append, updateFirst]
    rw [if_pos hx]
  | cons p pre' ih =>
    simp only [List.cons_append, updateFirst]
    rw [if_neg (hpre p (List.mem_cons_self p pre'))]
    exact congrArg (List.cons p) (ih (fun s hs => hpre s (List.mem_cons_of_mem p hs)))

/-- Claim C9: when several records share the same trimmed roll, the
Edit operation updates only the first such record in store order — any
later duplicate keeps its old name and marks and is still present in
the result — whereas the Delete operation removes every record with
that trimmed roll: the two operations resolve duplicate rolls
asymmetrically. -/
theorem C9_edit_delete_duplicate_asymmetry :
    ∀ (pre post : List Student) (x : Student) (rIn nIn mIn : Str) (q : ℚ),
      pyStrip rIn ≠ [] →
      (∀ s ∈ pre, pyStrip s.roll ≠ pyStrip rIn) →
      pyStrip x.roll = pyStrip rIn →
      pyStrip nIn ≠ [] →
      pyStrip mIn ≠ [] →
      pyFloat? (pyStrip mIn) = some q → 0 ≤ q → q ≤ 100 →
      edit_student (pre ++ x :: post) rIn nIn mIn =
        .saved (pre ++ ⟨x.roll, pyStrip nIn, formatMarks q⟩ :: post) ∧
      (∀ y ∈ post, y ∈ pre ++ ⟨x.roll, pyStrip nIn, formatMarks q⟩ :: post) ∧
      delete_student (pre ++ x :: post) rIn "y".data =
        .saved (pre ++ post.filter (fun s => pyStrip s.roll ≠ pyStrip rIn)) ∧
      (∀ y ∈ post, pyStrip y.roll = pyStrip rIn →
        y ∉ pre ++ post.filter (fun s => pyStrip s.roll ≠ pyStrip rIn)) := by
  intro pre post x rIn nIn mIn q hr hpre hx hn hm hq h0 h100
  have hpre' : ∀ s ∈ pre, pyStrip s.roll ≠ pyStrip (pyStrip rIn) := by
    intro s hs
    rw [pyStrip_idem]
    exact hpre s hs
  have hx' : pyStrip x.roll = pyStrip (pyStrip rIn) := by
    rw [pyStrip_idem]
    exact hx
  have hfind : find_by_roll (pre ++ x :: post) (pyStrip rIn) = some x :=
    find_by_roll_append pre post x (pyStrip rIn) hpre' hx'
  have hno : ¬(q < 0 ∨ q > 100) := by
    push_neg
    exact ⟨h0, h100⟩
  refine ⟨?_, ?_, ?_, ?_⟩
  · simp only [edit_student, if_neg hr, hfind, if_neg hn, if_neg hm, hq, if_neg hno]
    rw [updateFirst_append pre post x (pyStrip rIn) (pyStrip nIn)
      (formatMarks q) hpre hx]
  · intro y hy
    exact List.mem_append_right pre (List.mem_cons_of_mem _ hy)
  · have hconf : pyLower (pyStrip "y".data) = ['y'] := by decide
    simp only [delete_student, if_neg hr, hfind, hconf, if_pos]
    have hfil : (pre ++ x :: post).filter
        (fun s => pyStrip s.roll ≠ pyStrip rIn) =
        pre ++ post.filter (fun s => pyStrip s.roll ≠ pyStrip rIn) := by
      rw [List.filter_append]
      rw [List.filter_cons_of_neg]
      · congr 1
        rw [List.filter_eq_self]
        intro s hs
        exact decide_eq_true (hpre s hs)
      · simp [hx]
    rw [hfil]
  · intro y hy hyroll hmem
    rcases List.mem_append.1 hmem with h | h
    · exact hpre y h hyroll
    · have := (List.mem_filter.1 h).2
      rw [decide_eq_true_eq] at this
      exact this hyroll

/-- Concrete check of C9: with two records sharing trimmed roll "1001",
editing to name "Zed" and marks "75" rewrites only the first record —
the duplicate keeps name "B" and marks "60" and stays in the store —
while deleting roll "1001" removes both. -/
theorem C9_edit_delete_duplicate_asymmetry_witness :
    edit_student
      [Student.mk "1000".data "P".data "10".data,
       Student.mk "1001".data "A".data "50".data,
       Student.mk "1001".data "B".data "60".data]
      "1001".data "Zed".data "75".data =
      .saved ([Student.mk "1000".data "P".data "10".data] ++
        ⟨("1001".data : Str), pyStrip "Zed".data, formatMarks 75⟩ ::
          [Student.mk "1001".data "B".data "60".data]) ∧
    (∀ y ∈ [Student.mk "1001".data "B".data "60".data],
      y ∈ [Student.mk "1000".data "P".data "10".data] ++
        ⟨("1001".data : Str), pyStrip "Zed".data, formatMarks 75⟩ ::
          [Student.mk "1001".data "B".data "60".data]) ∧
    delete_student
      [Student.mk "1000".data "P".data "10".data,
       Student.mk "1001".data "A".data "50".data,
       Student.mk "1001".data "B".data "60".data]
      "1001".data "y".data =
      .saved ([Student.mk "1000".data "P".data "10".data] ++
        [Student.mk "1001".data "B".data "60".data].filter
          (fun s => pyStrip s.roll ≠ pyStrip "1001".data)) ∧
    (∀ y ∈ [Student.mk "1001".data "B".data "60".data],
      pyStrip y.roll = pyStrip "1001".data →
      y ∉ [Student.mk "1000".data "P".data "10".data] ++
        [Student.mk "1001".data "B".data "60".data].filter
          (fun s => pyStrip s.roll ≠ pyStrip "1001".data)) :=
  C9_edit_delete_duplicate_asymmetry
    [Student.mk "1000".data "P".data "10".data]
    [Student.mk "1001".data "B".data "60".data]
    (Student.mk "1001".data "A".data "50".data)
    "1001".data "Zed".data "75".data 75
    (by decide) (by decide) (by decide) (by decide) (by decide) (by decide)
    (by norm_num) (by norm_num)

/-! ## CSV round-trip lemmas -/

theorem scan_uq_other (c : Char) (t : Str) (cur : Str) (acc : List Str)
    (hq : c ≠ '"') (hc : c ≠ ',') :
    scanLine (c :: t) .uq cur acc = scanLine t .uq (cur ++ [c]) acc := by
  simp only [scanLine, if_neg hq, if_neg hc]

theorem scan_uq_comma (t : Str) (cur : Str) (acc : List Str) :
    scanLine (',' :: t) .uq cur acc = scanLine t .uq [] (acc ++ [cur]) := by
  simp [scanLine]

theorem scan_uq_open (t : Str) (acc : List Str) :
    scanLine ('"' :: t) .uq [] acc = scanLine t .inq [] acc := by
  simp [scanLine]

theorem scan_inq_other (c : Char) (t : Str) (cur : Str) (acc : List Str)
    (hq : c ≠ '"') :
    scanLine (c :: t) .inq cur acc = scanLine t .inq (cur ++ [c]) acc := by
  simp only [scanLine, if_neg hq]

theorem scan_inq_quote (t : Str) (cur : Str) (acc : List Str) :
    scanLine ('"' :: t) .inq cur acc = scanLine t .afterq cur acc := by
  simp [scanLine]

theorem scan_afterq_quote (t : Str) (cur : Str) (acc : List Str) :
    scanLine ('"' :: t) .afterq cur acc = scanLine t .inq (cur ++ ['"']) acc := by
  simp [scanLine]

theorem scan_afterq_comma (t : Str) (cur : Str) (acc : List Str) :
    scanLine (',' :: t) .afterq cur acc = scanLine t .uq [] (acc ++ [cur]) := by
  simp [scanLine]

theorem scan_quoted (f : Str) : ∀ (rest cur : Str) (acc : List Str),
    scanLine (escQ f ++ '"' :: rest) .inq cur acc =
      scanLine rest .afterq (cur ++ f) acc := by
  induction f with
  | nil =>
    intro rest cur acc
    simp only [escQ, List.nil_append]
    rw [scan_inq_quote, List.append_nil]
  | cons x xs ih =>
    intro rest cur acc
    by_cases hx : x = '"'
    · subst hx
      rw [show escQ ('"' :: xs) = '"' :: '"' :: escQ xs from by simp [escQ],
        List.cons_append, List.cons_append]
      rw [scan_inq_quote, scan_afterq_quote, ih rest (cur ++ ['"']) acc,
        List.append_assoc]
      rfl
    · simp only [escQ, if_neg hx, List.cons_append]
      rw [scan_inq_other x _ cur acc hx, ih rest (cur ++ [x]) acc,
        List.append_assoc]
      rfl

theorem scan_push (f : Str) (hfc : ',' ∉ f) (hfq : '"' ∉ f) :
    ∀ (rest cur : Str) (acc : List Str),
      scanLine (f ++ rest) .uq cur acc = scanLine rest .uq (cur ++ f) acc := by
  induction f with
  | nil =>
    intro rest cur acc
    rw [List.nil_append, List.append_nil]
  | cons x xs ih =>
    intro rest cur acc
    have hx : x ≠ '"' := fun h => hfq (h ▸ List.mem_cons_self x xs)
    have hxc : x ≠ ',' := fun h => hfc (h ▸ List.mem_cons_self x xs)
    rw [List.cons_append, scan_uq_other x _ cur acc hx hxc,
      ih (fun h => hfc (List.mem_cons_of_mem x h))
        (fun h => hfq (List.mem_cons_of_mem x h)) rest (cur ++ [x]) acc,
      List.append_assoc]
    rfl

theorem needsQuote_false {f : Str} (h : needsQuote f = false) :
    ',' ∉ f ∧ '"' ∉ f := by
  rw [needsQuote, List.any_eq_false] at h
  constructor
  · intro hc
    have := h ',' hc
    simp at this
  · intro hc
    have := h '"' hc
    simp at this

theorem scan_writeRow : ∀ (fs : List Str) (acc : List Str), fs ≠ [] →
    scanLine (writeRow fs) .uq [] acc = some (acc ++ fs) := by
  intro fs
  induction fs with
  | nil => intro acc h; exact absurd rfl h
  | cons f fs' ih =>
    intro acc _
    cases fs' with
    | nil =>
      show scanLine (quoteField f) .uq [] acc = some (acc ++ [f])
      by_cases hq : needsQuote f
      · rw [quoteField, if_pos hq]
        rw [scan_uq_open]
        rw [show escQ f ++ ['"'] = escQ f ++ '"' :: [] from rfl]
        rw [scan_quoted f [] [] acc]
        simp [scanLine]
      · rcases needsQuote_false (Bool.not_eq_true _ ▸ hq : needsQuote f = false)
          with ⟨hfc, hfq⟩
        rw [quoteField, if_neg hq]
        rw [show f = f ++ ([] : Str) by simp]
        rw [scan_push f hfc hfq [] [] acc]
        simp [scanLine]
    | cons g fs'' =>
      show scanLine (quoteField f ++ ',' :: writeRow (g :: fs'')) .uq [] acc =
        some (acc ++ f :: g :: fs'')
      by_cases hq : needsQuote f
      · rw [quoteField, if_pos hq]
        rw [List.cons_append, List.append_assoc]
        rw [scan_uq_open]
        rw [show (['"'] : Str) ++ ',' :: writeRow (g :: fs'') =
          '"' :: ',' :: writeRow (g :: fs'') from rfl]
        rw [scan_quoted f (',' :: writeRow (g :: fs'')) [] acc]
        rw [List.nil_append, scan_afterq_comma]
        rw [ih (acc ++ [f]) (by simp)]
        simp
      · rcases needsQuote_false (Bool.not_eq_true _ ▸ hq : needsQuote f = false)
          with ⟨hfc, hfq⟩
        rw [quoteField, if_neg hq]
        rw [scan_push f hfc hfq (',' :: writeRow (g :: fs'')) [] acc]
        rw [List.nil_append, scan_uq_comma]
        rw [ih (acc ++ [f]) (by simp)]
        simp

theorem parseFields_writeRow (fs : List Str) (hne : fs ≠ []) :
    parseFields (writeRow fs) = some fs := by
  rw [parseFields, scan_writeRow fs [] hne, List.nil_append]

theorem mem_escQ {c : Char} : ∀ {f : Str}, c ∈ escQ f → c ∈ f ∨ c = '"' := by
  intro f
  induction f with
  | nil => intro h; simp [escQ] at h
  | cons x xs ih =>
    intro h
    by_cases hx : x = '"'
    · subst hx
      rw [show escQ ('"' :: xs) = '"' :: '"' :: escQ xs from by simp [escQ]] at h
      rcases List.mem_cons.1 h with h1 | h1
      · exact Or.inr h1
      · rcases List.mem_cons.1 h1 with h2 | h2
        · exact Or.inr h2
        · rcases ih h2 with h3 | h3
          · exact Or.inl (List.mem_cons_of_mem _ h3)
          · exact Or.inr h3
    · rw [show escQ (x :: xs) = x :: escQ xs from by simp [escQ, hx]] at h
      rcases List.mem_cons.1 h with h1 | h1
      · exact Or.inl (h1 ▸ List.mem_cons_self x xs)
      · rcases ih h1 with h3 | h3
        · exact Or.inl (List.mem_cons_of_mem _ h3)
        · exact Or.inr h3

theorem mem_quoteField {c : Char} {f : Str} (h : c ∈ quoteField f) :
    c ∈ f ∨ c = '"' := by
  rw [quoteField] at h
  by_cases hq : needsQuote f
  · rw [if_pos hq] at h
    rcases List.mem_cons.1 h with h1 | h1
    · exact Or.inr h1
    · rcases List.mem_append.1 h1 with h2 | h2
      · exact mem_escQ h2
      · exact Or.inr (by simpa using h2)
  · rw [if_neg hq] at h
    exact Or.inl h

theorem mem_writeRow {c : Char} : ∀ {fs : List Str}, c ∈ writeRow fs →
    (∃ f ∈ fs, c ∈ f) ∨ c = ',' ∨ c = '"' := by
  intro fs
  induction fs with
  | nil => intro h; simp [writeRow] at h
  | cons f fs' ih =>
    intro h
    cases fs' with
    | nil =>
      rcases mem_quoteField (by simpa [writeRow] using h) with h1 | h1
      · exact Or.inl ⟨f, List.mem_cons_self f [], h1⟩
      · exact Or.inr (Or.inr h1)
    | cons g fs'' =>
      rw [show writeRow (f :: g :: fs'') = quoteField f ++ ',' :: writeRow (g :: fs'')
          from rfl] at h
      rcases List.mem_append.1 h with h1 | h1
      · rcases mem_quoteField h1 with h2 | h2
        · exact Or.inl ⟨f, List.mem_cons_self f _, h2⟩
        · exact Or.inr (Or.inr h2)
      · rcases List.mem_cons.1 h1 with h2 | h2
        · exact Or.inr (Or.inl h2)
        · rcases ih h2 with h3 | h3
          · rcases h3 with ⟨f', hf', hc⟩
            exact Or.inl ⟨f', List.mem_cons_of_mem f hf', hc⟩
          · exact Or.inr h3

theorem writeRow_no_cr {fs : List Str} (h : ∀ f ∈ fs, fieldOk f) :
    '\r' ∉ writeRow fs := by
  intro hmem
  rcases mem_writeRow hmem with ⟨f, hf, hc⟩ | hc | hc
  · exact (h f hf).1 hc
  · exact absurd hc (by decide)
  · exact absurd hc (by decide)

theorem splitLines_cons (c : Char) (t : Str) (hc : c ≠ '\r') :
    splitLines (c :: t) =
      match splitLines t with
      | [] => [[c]]
      | l :: ls => (c :: l) :: ls := by
  rw [splitLines.eq_def]
  split <;> simp_all

theorem splitLines_append (line rest : Str) (h : '\r' ∉ line) :
    splitLines (line ++ '\r' :: '\n' :: rest) = line :: splitLines rest := by
  induction line with
  | nil =>
    rw [List.nil_append]
    rfl
  | cons c l ih =>
    have hc : c ≠ '\r' := fun hcc => h (hcc ▸ List.mem_cons_self c l)
    rw [List.cons_append, splitLines_cons c _ hc,
      ih (fun hm => h (List.mem_cons_of_mem c hm))]

theorem splitLines_rows : ∀ (students : List Student),
    (∀ s ∈ students, studentOk s) →
    splitLines ((students.map
        (fun s => writeRow [s.roll, s.name, s.marks] ++ CRLF)).foldr (· ++ ·) []) =
      students.map (fun s => writeRow [s.roll, s.name, s.marks]) := by
  intro students
  induction students with
  | nil => intro _; rfl
  | cons s rest ih =>
    intro h
    simp only [List.map_cons, List.foldr_cons]
    rw [List.append_assoc]
    rw [show CRLF ++ (rest.map
        (fun s => writeRow [s.roll, s.name, s.marks] ++ CRLF)).foldr (· ++ ·) [] =
      '\r' :: '\n' :: (rest.map
        (fun s => writeRow [s.roll, s.name, s.marks] ++ CRLF)).foldr (· ++ ·) []
      from rfl]
    rw [splitLines_append _ _ (writeRow_no_cr (by
      intro f hf
      have hs := h s (List.mem_cons_self s rest)
      rcases hs with ⟨h1, h2, h3⟩
      simp only [List.mem_cons] at hf
      rcases hf with hf | hf | hf | hf
      · exact hf ▸ h1
      · exact hf ▸ h2
      · exact hf ▸ h3
      · simp at hf))]
    rw [ih (fun t ht => h t (List.mem_cons_of_mem s ht))]

theorem writeRow3_ne_nil (a b c : Str) : writeRow [a, b, c] ≠ [] := by
  rw [show writeRow [a, b, c] = quoteField a ++ ',' :: writeRow [b, c] from rfl]
  simp

theorem parseLinesToRows_map : ∀ (students : List Student),
    parseLinesToRows (students.map (fun s => writeRow [s.roll, s.name, s.marks])) =
      some (students.map (fun s => [s.roll, s.name, s.marks])) := by
  intro students
  induction students with
  | nil => rfl
  | cons s rest ih =>
    simp only [List.map_cons]
    cases hrow : writeRow [s.roll, s.name, s.marks] with
    | nil => exact absurd hrow (writeRow3_ne_nil s.roll s.name s.marks)
    | cons c cs =>
      have hparse : parseFields (c :: cs) = some [s.roll, s.name, s.marks] := by
        rw [← hrow]
        exact parseFields_writeRow [s.roll, s.name, s.marks] (by simp)
      rw [show parseLinesToRows ((c :: cs) :: rest.map
          (fun s => writeRow [s.roll, s.name, s.marks])) =
        (match parseFields (c :: cs), parseLinesToRows (rest.map
            (fun s => writeRow [s.roll, s.name, s.marks])) with
          | some r, some rs => some (r :: rs)
          | _, _ => none) from rfl]
      rw [hparse, ih]

theorem rowsToStudents_map : ∀ (students : List Student),
    rowsToStudents (students.map (fun s => [s.roll, s.name, s.marks])) =
      some students := by
  intro students
  induction students with
  | nil => rfl
  | cons s rest ih =>
    simp only [List.map_cons, rowsToStudents, ih]

/-- Shared round-trip core: loading the content written by
`save_students` returns exactly the saved records, for records whose
fields are representable in a delimited row. -/
theorem save_load (students : List Student)
    (h : ∀ s ∈ students, studentOk s) :
    load_students (save_students students) = some students := by
  rw [load_students, save_students]
  rw [List.append_assoc]
  rw [show CRLF ++ (students.map
      (fun s => writeRow [s.roll, s.name, s.marks] ++ CRLF)).foldr (· ++ ·) [] =
    '\r' :: '\n' :: (students.map
      (fun s => writeRow [s.roll, s.name, s.marks] ++ CRLF)).foldr (· ++ ·) []
    from rfl]
  rw [splitLines_append _ _ (by decide)]
  rw [splitLines_rows students h]
  cases hlines : students.map (fun s => writeRow [s.roll, s.name, s.marks]) with
  | nil =>
    have : students = [] := by
      cases students with
      | nil => rfl
      | cons a b => simp at hlines
    subst this
    rfl
  | cons r rs =>
    rw [show parseLinesToRows (writeRow headerFields :: r :: rs) =
      (match parseFields (writeRow headerFields),
          parseLinesToRows (r :: rs) with
        | some hd, some tl => some (hd :: tl)
        | _, _ => none) from by rfl]
    rw [parseFields_writeRow headerFields (by simp [headerFields])]
    rw [← hlines, parseLinesToRows_map students]
    simp only [if_pos rfl]
    exact rowsToStudents_map students

/-! ## Claim C10 -/

/-- Claim C10: for every finite list of records whose fields are
representable in a delimited row (no embedded line terminator — commas
and quotes round-trip through CSV quoting), loading the store content
written by `save_students(records)` returns exactly that list: same
length, same order, identical field values.  The persistence layer
loses no data in the save-then-load direction. -/
theorem C10_save_load_identity (records : List Student)
    (h : ∀ s ∈ records, studentOk s) :
    load_students (save_students records) = some records :=
  save_load records h

/-- Concrete check of C10: a two-record store whose name field
contains a comma and a quote round-trips exactly. -/
theorem C10_save_load_identity_witness :
    load_students (save_students
      [Student.mk "1001".data "Di Maria, \"El Fideo\"".data "91.5".data,
       Student.mk "1002".data "Rossi".data "88".data]) =
      some [Student.mk "1001".data "Di Maria, \"El Fideo\"".data "91.5".data,
            Student.mk "1002".data "Rossi".data "88".data] :=
  C10_save_load_identity
    [Student.mk "1001".data "Di Maria, \"El Fideo\"".data "91.5".data,
     Student.mk "1002".data "Rossi".data "88".data]
    (by decide)

/-! ## Claim C7 -/

/-- Claim C7: for every well-formed store content (one that loads to a
record list whose fields are representable in a delimited row), writing
back the loaded records — `saveAll(loadAll())` — leaves the store's
observable content unchanged: loading again yields the same records
with the same field values in the same order. -/
theorem C7_load_save_roundtrip (content : Str) (records : List Student)
    (hload : load_students content = some records)
    (hok : ∀ s ∈ records, studentOk s) :
    load_students (save_students records) = some records :=
  save_load records hok

/-- Concrete check of C7: loading a literal store content (header plus
two rows, one quoted), then saving and re-loading, reproduces exactly
the loaded records. -/
theorem C7_load_save_roundtrip_witness :
    load_students "roll,name,marks\r\n1001,\"A,B\",50\r\n1002,C,60\r\n".data =
      some [Student.mk "1001".data "A,B".data "50".data,
            Student.mk "1002".data "C".data "60".data] ∧
    load_students (save_students
      [Student.mk "1001".data "A,B".data "50".data,
       Student.mk "1002".data "C".data "60".data]) =
      some [Student.mk "1001".data "A,B".data "50".data,
            Student.mk "1002".data "C".data "60".data] :=
  ⟨by decide,
    C7_load_save_roundtrip
      "roll,name,marks\r\n1001,\"A,B\",50\r\n1002,C,60\r\n".data
      [Student.mk "1001".data "A,B".data "50".data,
       Student.mk "1002".data "C".data "60".data]
      (by decide) (by decide)⟩

end StudentMngmt
